import Mathlib

/-!
Shallow embedding of `libs/utils.py` from the repository
`sum-coderepo/ml-from-scratch-1`, together with a verification of its
natural-language specification.

Modelling conventions:
* numpy 2-D float arrays are `Mat := List (List ℚ)` (row-major lists of rows);
  general numpy arrays with an explicit shape are `NpArr` (a shape together
  with the flat row-major data).
* the opaque model collaborators (`model(X)`, `model.loss_func`,
  `model.backward`, a generator, a discriminator) are records of functions
  over an abstract parameter-state type; an in-place parameter update is
  explicit state passing.
* randomness (`np.random.permutation`, `np.random.normal`,
  `np.random.choice`) is passed in as an explicit parameter ranging over the
  support of the corresponding distribution.
* a Python runtime error (numpy reshape failure, `ZeroDivisionError`) is
  `Option`/`none`.
-/

/-- A numpy 2-D float array: a list of rows of rationals. -/
abbrev Mat : Type := List (List ℚ)

/-- A numpy array with an explicit shape: the flat row-major data plus the
shape vector. -/
structure NpArr where
  shape : List ℕ
  data : List ℚ
deriving DecidableEq, Repr

/-- Numpy fancy indexing `X[ind]` for an integer index array `ind`: the rows
of `X` selected by `ind`, in order.  (Out-of-range indices do not occur in the
program; `getD` gives them a junk value.) -/
def reindex (X : Mat) (ind : List ℕ) : Mat :=
  ind.map (fun i => X.getD i [])

/-- Python `range(0, n, bs)` (the batch start offsets of `Trainer.train`):
`[0, bs, 2*bs, ...)` below `n`, which has `⌈n / bs⌉` elements. -/
def batchStarts (n bs : ℕ) : List ℕ :=
  (List.range ((n + bs - 1) / bs)).map (fun j => j * bs)

/-- Numpy slice `X[it:it+bs]` on the rows of a 2-D array. -/
def npSlice (X : Mat) (it bs : ℕ) : Mat :=
  (X.drop it).take bs

/-- The supervised-model collaborator used by `Trainer`
(`model(X)`, `model.loss_func(y_hat, y)`, `model.backward(y, y_hat, X)`),
over an abstract parameter-state type `σ`.  `backward` performs the in-place
parameter update, modelled as returning the new state. -/
structure SupModel (σ : Type) where
  call : σ → Mat → Mat
  loss_func : σ → Mat → Mat → ℚ
  backward : σ → Mat → Mat → Mat → σ

/-- One pass of the inner batch loop body of `Trainer.train`
(`utils.py` lines 118-126): slice the batch, predict, compute the batch
loss, update the parameters, and accumulate `(epoch_loss, num_batches)`.
The accumulator is `(model state, epoch_loss, num_batches)`. -/
def Trainer.batchStep {σ : Type} (M : SupModel σ) (bs : ℕ) (X y : Mat)
    (acc : σ × ℚ × ℕ) (it : ℕ) : σ × ℚ × ℕ :=
  let xb := npSlice X it bs
  let yb := npSlice y it bs
  let yh := M.call acc.1 xb
  let bl := M.loss_func acc.1 yh yb
  (M.backward acc.1 yb yh xb, acc.2.1 + bl, acc.2.2 + 1)

/-- One epoch of `Trainer.train` after the shuffle: fold the batch loop over
the batch start offsets `range(0, X.shape[0], batch_size)`, starting from
`epoch_loss = 0.0`, `num_batches = 0`. -/
def Trainer.trainEpoch {σ : Type} (M : SupModel σ) (s : σ) (X y : Mat)
    (bs : ℕ) : σ × ℚ × ℕ :=
  (batchStarts X.length bs).foldl (Trainer.batchStep M bs X y) (s, 0, 0)

/-- `Trainer.train` (`utils.py` lines 105-128), parameterised by the sequence
of shuffles: `perms` holds, for each epoch, the index array produced by
`np.random.permutation(m)`.  Each epoch shuffles `X_train`/`y_train` in place
(the shuffled arrays are carried to the next epoch, as in the source), runs
the batch loop, and reports `epoch_loss / num_batches`.  The reported value
is `none` when `num_batches = 0`, where Python raises `ZeroDivisionError`. -/
def Trainer.train {σ : Type} (M : SupModel σ) (bs : ℕ) :
    σ → Mat → Mat → List (List ℕ) → List (Option ℚ)
  | _, _, _, [] => []
  | s, X, y, ind :: rest =>
    let X1 := reindex X ind
    let y1 := reindex y ind
    let r := Trainer.trainEpoch M s X1 y1 bs
    (if r.2.2 = 0 then none else some (r.2.1 / (r.2.2 : ℚ))) ::
      Trainer.train M bs r.1 X1 y1 rest

/-- A concrete no-op model: constant loss `5`, identity (no-op) backward. -/
def M1 : SupModel Unit where
  call := fun _ _ => []
  loss_func := fun _ _ _ => 5
  backward := fun s _ _ _ => s

/-- The discriminator collaborator of `TrainerGAN`
(`discriminator(x)`, `discriminator.loss_func(y_hat, y)`,
`discriminator.backward(y, y_hat, x)`), over an abstract parameter-state
type `σd`. -/
structure Disc (σd : Type) where
  call : σd → Mat → Mat
  loss_func : σd → Mat → Mat → ℚ
  backward : σd → Mat → Mat → Mat → σd

/-- The generator collaborator of `TrainerGAN`.  `generator(z)` maps each
latent row to one fake sample (`gen` applied row-wise), and
`generator.backward(target, y_hat, z, discriminator)` receives the
discriminator (and its current parameter state) as a collaborator. -/
structure Gen (σg σd : Type) where
  gen : σg → List ℚ → List ℚ
  backward : σg → Mat → Mat → Mat → Disc σd → σd → σg

/-- `np.ones(shape=(batch_size, 1))` of `TrainerGAN.train`. -/
def ganOnes (bs : ℕ) : Mat := List.replicate bs [(1 : ℚ)]

/-- `np.zeros(shape=(batch_size, 1))` of `TrainerGAN.train`. -/
def ganZeros (bs : ℕ) : Mat := List.replicate bs [(0 : ℚ)]

/-- The label vector `y = np.concatenate((ones, zeros), axis=0)` built once
before the iteration loop of `TrainerGAN.train`. -/
def ganY (bs : ℕ) : Mat := ganOnes bs ++ ganZeros bs

/-- The support of `np.random.choice(m, bs)` (`utils.py` line 156): with the
default `replace=True`, any list of `bs` indices below `m`, repetitions
allowed. -/
def validDraw (m bs : ℕ) (ind : List ℕ) : Prop :=
  ind.length = bs ∧ ∀ i ∈ ind, i < m

instance (m bs : ℕ) (ind : List ℕ) : Decidable (validDraw m bs ind) := by
  unfold validDraw; infer_instance

/-- The trace of one inner discriminator step of `TrainerGAN.train`:
the real-sample index draw, the concatenated batch `x` passed to the
discriminator, the label vector `y` passed with it, and the step's
discriminator loss `D_loss`. -/
structure DStep where
  ind : List ℕ
  x : Mat
  y : Mat
  dloss : ℚ
deriving DecidableEq

/-- The inner `for _ in range(self.k)` discriminator loop of
`TrainerGAN.train` (`utils.py` lines 155-162), one recursive call per drawn
index array.  Arguments after the matrices: discriminator state `sd`, the
current value of the Python variable `D_loss` (dead before the first step),
the accumulator `report_loss`, and the list of index draws (one per inner
step, so the list has length `k`).  Returns the final discriminator state,
the final value of `D_loss`, the final `report_loss`, and the step trace. -/
def TrainerGAN.innerLoop {σd : Type} (D : Disc σd) (X G yv : Mat) :
    σd → ℚ → ℚ → List (List ℕ) → σd × ℚ × ℚ × List DStep
  | sd, lastL, rep, [] => (sd, lastL, rep, [])
  | sd, _, rep, ind :: rest =>
    let x := reindex X ind ++ G
    let yh := D.call sd x
    let dl := D.loss_func sd yh yv
    let r := TrainerGAN.innerLoop D X G yv (D.backward sd yv yh x) dl (rep + dl) rest
    (r.1, r.2.1, r.2.2.1, ⟨ind, x, yv, dl⟩ :: r.2.2.2)

/-- The trace of one iteration of the `for i in range(self.iterations)` loop
of `TrainerGAN.train`: the latent draw `z`, the fake batch `G`, the inner
discriminator steps, the matrix fed to the discriminator in the generator
step and the target used there, the printed discriminator loss
`D_loss / self.k`, the accumulated (never printed) `report_loss`, the
generator loss, and the states before/after. -/
structure GanIterOut (σg σd : Type) where
  z : Mat
  fake : Mat
  dsteps : List DStep
  sdOut : σd
  genInput : Mat
  genTarget : Mat
  gLoss : ℚ
  printedD : ℚ
  reportLoss : ℚ
  sgIn : σg
  sgOut : σg

/-- One iteration of `TrainerGAN.train` (`utils.py` lines 151-168):
draw `z`, generate `G = generator(z)`, run the `k` inner discriminator steps
on `concatenate((X_train[ind], G))` against `y`, then train the generator by
computing the discriminator output on `G` against `ones` and calling
`generator.backward(ones, y_hat, z, discriminator)`.  The printed
discriminator loss is `D_loss / self.k` where `D_loss` holds the last inner
step's loss (`self.k = inds.length`). -/
def TrainerGAN.iteration {σg σd : Type} (Gn : Gen σg σd) (D : Disc σd)
    (sg : σg) (sd : σd) (X : Mat) (bs : ℕ) (z : Mat)
    (inds : List (List ℕ)) : GanIterOut σg σd :=
  let G := z.map (Gn.gen sg)
  let r := TrainerGAN.innerLoop D X G (ganY bs) sd 0 0 inds
  let yh2 := D.call r.1 G
  { z := z
    fake := G
    dsteps := r.2.2.2
    sdOut := r.1
    genInput := G
    genTarget := ganOnes bs
    gLoss := D.loss_func r.1 yh2 (ganOnes bs)
    printedD := r.2.1 / (inds.length : ℚ)
    reportLoss := r.2.2.1
    sgIn := sg
    sgOut := Gn.backward sg (ganOnes bs) yh2 z D r.1 }

/-- `TrainerGAN.train` (`utils.py` lines 146-173), parameterised by the
randomness: one `(z, index draws)` pair per iteration.  Returns the trace of
all iterations, threading the generator and discriminator states. -/
def TrainerGAN.train {σg σd : Type} (Gn : Gen σg σd) (D : Disc σd)
    (X : Mat) (bs : ℕ) :
    σg → σd → List (Mat × List (List ℕ)) → List (GanIterOut σg σd)
  | _, _, [] => []
  | sg, sd, (z, inds) :: rest =>
    let out := TrainerGAN.iteration Gn D sg sd X bs z inds
    out :: TrainerGAN.train Gn D X bs out.sgOut out.sdOut rest

/-- Validity of the randomness stream fed to `TrainerGAN.train` for a
training set `X`: each latent draw has `batch_size` rows
(`np.random.normal(size=(batch_size, latent_dim))`) and each inner-step index
draw is in the support of `np.random.choice(X.shape[0], batch_size)`. -/
def TrainerGAN.randsOK (bs : ℕ) (X : Mat)
    (rands : List (Mat × List (List ℕ))) : Prop :=
  ∀ r ∈ rands, r.1.length = bs ∧ ∀ ind ∈ r.2, validDraw X.length bs ind

instance (bs : ℕ) (X : Mat) (rands : List (Mat × List (List ℕ))) :
    Decidable (TrainerGAN.randsOK bs X rands) := by
  unfold TrainerGAN.randsOK; infer_instance

/-- The C2 invariant for one iteration: the fake batch has `batch_size` rows,
and every inner discriminator step receives the batch
`X_train[ind] ++ fake` of length `2 * batch_size` — `batch_size` rows taken
from `X_train` followed by the `batch_size` fake rows — together with the
label vector `ganY bs`, whose first `batch_size` entries are `[1]` and last
`batch_size` entries are `[0]`. -/
def TrainerGAN.discBatchOK {σg σd : Type} (bs : ℕ) (X : Mat)
    (out : GanIterOut σg σd) : Prop :=
  out.fake.length = bs ∧
  ∀ st ∈ out.dsteps,
    st.x = reindex X st.ind ++ out.fake ∧
    st.ind.length = bs ∧
    (∀ v ∈ reindex X st.ind, v ∈ X) ∧
    st.x.length = 2 * bs ∧
    st.y = ganY bs ∧
    st.y.take bs = List.replicate bs [(1 : ℚ)] ∧
    st.y.drop bs = List.replicate bs [(0 : ℚ)]

/-- C2 invariant over a whole `TrainerGAN.train` trace. -/
def TrainerGAN.allDiscBatchOK {σg σd : Type} (bs : ℕ) (X : Mat)
    (outs : List (GanIterOut σg σd)) : Prop :=
  ∀ out ∈ outs, TrainerGAN.discBatchOK bs X out

/-- The generator-step data flow of one iteration (the corrected C3): the
matrix fed to the discriminator in the generator step is the *same* fake
batch `G` produced from the iteration's single latent draw `z` (not a fresh
one); the target is the all-ones vector of length `batch_size`; and the
generator's backward operation is called as
`generator.backward(ones, y_hat, z, discriminator)` with the discriminator
(at its post-inner-steps state) passed as a collaborator. -/
def TrainerGAN.genStepOK {σg σd : Type} (Gn : Gen σg σd) (D : Disc σd)
    (bs : ℕ) (out : GanIterOut σg σd) : Prop :=
  out.genInput = out.fake ∧
  out.fake = out.z.map (Gn.gen out.sgIn) ∧
  out.genTarget = ganOnes bs ∧
  (ganOnes bs).length = bs ∧
  out.gLoss = D.loss_func out.sdOut (D.call out.sdOut out.fake) (ganOnes bs) ∧
  out.sgOut = Gn.backward out.sgIn (ganOnes bs) (D.call out.sdOut out.fake)
    out.z D out.sdOut

/-- Generator-step data flow over a whole `TrainerGAN.train` trace. -/
def TrainerGAN.allGenStepOK {σg σd : Type} (Gn : Gen σg σd) (D : Disc σd)
    (bs : ℕ) (outs : List (GanIterOut σg σd)) : Prop :=
  ∀ out ∈ outs, TrainerGAN.genStepOK Gn D bs out

/-- The C9 bookkeeping for one iteration: the printed discriminator loss is
the *last* inner step's loss divided by `k` (`k` being the number of inner
steps), while `report_loss` accumulates the sum of all `k` inner-step losses
and is never printed. -/
def TrainerGAN.printedOK {σg σd : Type} (out : GanIterOut σg σd) : Prop :=
  out.printedD =
    ((out.dsteps.map DStep.dloss).getLastD 0) / (out.dsteps.length : ℚ) ∧
  out.reportLoss = (out.dsteps.map DStep.dloss).sum

/-- C9 bookkeeping over a whole `TrainerGAN.train` trace. -/
def TrainerGAN.allPrintedOK {σg σd : Type}
    (outs : List (GanIterOut σg σd)) : Prop :=
  ∀ out ∈ outs, TrainerGAN.printedOK out

/-- A concrete discriminator whose state counts its backward calls and whose
loss returns the counter: inner-step losses `1, 2, ...` from state `1`. -/
def Dq : Disc ℚ where
  call := fun _ _ => []
  loss_func := fun s _ _ => s
  backward := fun s _ _ _ => s + 1

/-- A concrete generator mapping each latent row to itself. -/
def Gq : Gen Unit ℚ where
  gen := fun _ v => v
  backward := fun _ _ _ _ _ _ => ()

/-- The fitted categories of `sklearn.preprocessing.OneHotEncoder` on the
label column `y.reshape((-1, 1))`: the distinct label values in sorted
order (the library's documented default category ordering). -/
def classesOf (y : List ℚ) : List ℚ :=
  y.toFinset.sort (fun a b => a ≤ b)

/-- `one_hot_encoding(y)` (`utils.py` lines 56-59): reshape the labels to a
column and return the dense indicator matrix of the fitted
`OneHotEncoder` — row `i` has a `1` exactly in the column of the category
equal to `y[i]`, with columns ordered by sorted distinct label value. -/
def one_hot_encoding (y : List ℚ) : Mat :=
  y.map (fun v => (classesOf y).map (fun c => if v = c then (1 : ℚ) else 0))

/-- The one-hot encoded label array as a numpy array: shape
`(len(y), number of distinct labels)`, data the flattened indicator
matrix. -/
def ohArr (y : NpArr) : NpArr :=
  ⟨[y.data.length, (classesOf y.data).length], (one_hot_encoding y.data).flatten⟩

/-- `X / 255`: elementwise division of a numpy array by 255. -/
def npDiv255 (a : NpArr) : NpArr :=
  ⟨a.shape, a.data.map (fun v => v / 255)⟩

/-- `a.reshape((-1, d₁, ..., dₖ))`: infer the leading dimension from the
size; numpy raises (modelled as `none`) when the size is not divisible by
the product of the given dimensions. -/
def npReshapeTail (a : NpArr) (dims : List ℕ) : Option NpArr :=
  if dims.prod ∣ a.data.length then
    some ⟨a.data.length / dims.prod :: dims, a.data⟩
  else none

/-- `preprocess_data(X, y, nn, test)` (`utils.py` lines 62-71): divide `X`
by 255; if `nn`, reshape `X` to `(-1, 28, 28, 1)`; if not `test`, one-hot
encode `y`.  Returns `none` when the reshape fails. -/
def preprocess_data (X y : NpArr) (nn test : Bool) : Option (NpArr × NpArr) :=
  let X1 := npDiv255 X
  let X2 := if nn then npReshapeTail X1 [28, 28, 1] else some X1
  match X2 with
  | none => none
  | some X3 => some (X3, if test then y else ohArr y)

/-- The four fixed download URLs of `load_dataset_mnist`. -/
def mnistUrls : List String :=
  ["http://yann.lecun.com/exdb/mnist/train-images-idx3-ubyte.gz",
   "http://yann.lecun.com/exdb/mnist/t10k-images-idx3-ubyte.gz",
   "http://yann.lecun.com/exdb/mnist/train-labels-idx1-ubyte.gz",
   "http://yann.lecun.com/exdb/mnist/t10k-labels-idx1-ubyte.gz"]

/-- `file_url.split("/")[-1]`. -/
def fileName (u : String) : String :=
  (u.splitOn "/").getLastD ""

/-- `"".join(file_name.split(".")[:-1])`: the decompressed target name. -/
def uncompressedName (n : String) : String :=
  String.intercalate "" ((n.splitOn ".").dropLast)

/-- The filesystem state `load_dataset_mnist` interacts with: whether
`data_mnist` exists under `check_path`, and the file names inside it. -/
structure MnistFS where
  hasDir : Bool
  files : List String

/-- One pass of the download loop of `load_dataset_mnist`
(`utils.py` lines 30-43) on state `(filesystem, network request count)`:
skip the URL when its decompressed target is present; otherwise download the
gzip file unless already present (one network request) and write the
decompressed target.  (The final `os.system("rm -rf " + file_name)` acts on
the current working directory, not on `data_mnist`, so the gzip file stays.) -/
def mnistStep (st : MnistFS × ℕ) (url : String) : MnistFS × ℕ :=
  let name := fileName url
  let un := uncompressedName name
  if un ∈ st.1.files then st
  else
    let st1 : MnistFS × ℕ :=
      if name ∈ st.1.files then st else (⟨st.1.hasDir, name :: st.1.files⟩, st.2 + 1)
    (⟨st1.1.hasDir, un :: st1.1.files⟩, st1.2)

/-- `load_dataset_mnist(check_path)` (`utils.py` lines 20-46): create
`data_mnist` if absent, then run the download loop over the four URLs.
Returns the final filesystem state and the number of network requests
(`requests.get` calls) performed. -/
def load_dataset_mnist (fs : MnistFS) : MnistFS × ℕ :=
  mnistUrls.foldl mnistStep (⟨true, fs.files⟩, 0)

/-- `np.empty(shape)`: a fresh array of the given shape (the uninitialised
contents are modelled as zeros; `load_dataset_cifar10` overwrites them
all). -/
def npEmpty (shape : List ℕ) : NpArr :=
  ⟨shape, List.replicate shape.prod 0⟩

/-- Numpy slice assignment `dst[start:stop] = src` on flat data (the source
fills the region exactly: `src.length = stop - start`). -/
def sliceAssign (dst : List ℚ) (start stop : ℕ) (src : List ℚ) : List ℚ :=
  dst.take start ++ src ++ dst.drop stop

/-- Modelled from the spec: the contract of `load_batch` (defined in
`libs/cifar10_lib.py`, which is not present under `src/`).  Per the spec,
`load_dataset_cifar10` "reads five training batches plus one test batch in a
fixed external pickled format" and returns `(10000, 3, 32, 32)`-shaped test
features, so each call to `load_batch` yields 10000 samples of shape
`3×32×32` together with a label vector of length 10000. -/
def load_batch_contract (lb : String → NpArr × NpArr) : Prop :=
  ∀ p, (lb p).1.shape = [10000, 3, 32, 32] ∧
    (lb p).1.data.length = 10000 * 3 * 32 * 32 ∧
    (lb p).2.shape = [10000] ∧
    (lb p).2.data.length = 10000

/-- The body of the `for i in range(1, 6)` loop of `load_dataset_cifar10`:
read training batch `i + 1` and slice-assign its samples and labels into the
rows `[i*10000, (i+1)*10000)` of the accumulating `(x_train, y_train)` flat
data (one sample is `3*32*32 = 3072` flat entries). -/
def cifarFoldStep (lb : String → NpArr × NpArr)
    (acc : List ℚ × List ℚ) (i : ℕ) : List ℚ × List ℚ :=
  let b := lb ("cifar-10-batches-py" ++ "/data_batch_" ++ toString (i + 1))
  (sliceAssign acc.1 (i * 10000 * 3072) ((i + 1) * 10000 * 3072) b.1.data,
   sliceAssign acc.2 (i * 10000) ((i + 1) * 10000) b.2.data)

/-- `load_dataset_cifar10` (`utils.py` lines 191-217), parameterised by the
external `load_batch` reader `lb`: allocate `x_train` of shape
`(50000, 3, 32, 32)` and `y_train` of shape `(50000,)`, fill them from the
five training batches by slice assignment, read the test batch, and reshape
both label vectors to column form `(len, 1)`. -/
def load_dataset_cifar10 (lb : String → NpArr × NpArr) :
    (NpArr × NpArr) × (NpArr × NpArr) :=
  let filled := (List.range 5).foldl (cifarFoldStep lb)
    ((npEmpty [50000, 3, 32, 32]).data, (npEmpty [50000]).data)
  let x_train : NpArr := ⟨[50000, 3, 32, 32], filled.1⟩
  let tb := lb ("cifar-10-batches-py" ++ "/test_batch")
  let y_train : NpArr := ⟨[filled.2.length, 1], filled.2⟩
  let y_test : NpArr := ⟨[tb.2.data.length, 1], tb.2.data⟩
  ((x_train, y_train), (tb.1, y_test))

/-- A concrete `load_batch` satisfying the contract: every batch is all
zeros. -/
def lb0 : String → NpArr × NpArr :=
  fun _ => (⟨[10000, 3, 32, 32], List.replicate (10000 * 3 * 32 * 32) 0⟩,
            ⟨[10000], List.replicate 10000 0⟩)

theorem reindex_length (X : Mat) (ind : List ℕ) :
    (reindex X ind).length = ind.length := by
  simp [reindex]

theorem batchStarts_length (n bs : ℕ) :
    (batchStarts n bs).length = (n + bs - 1) / bs := by
  simp [batchStarts]

theorem Trainer.batchStep_foldl_snd {σ : Type} (M : SupModel σ) (bs : ℕ)
    (X y : Mat) (c : ℚ) (hl : ∀ s a b, M.loss_func s a b = c) :
    ∀ (starts : List ℕ) (acc : σ × ℚ × ℕ),
      (starts.foldl (Trainer.batchStep M bs X y) acc).2 =
        (acc.2.1 + c * starts.length, acc.2.2 + starts.length) := by
  intro starts
  induction starts with
  | nil => intro acc; simp
  | cons it rest ih =>
    intro acc
    rw [List.foldl_cons, ih]
    simp only [Trainer.batchStep, hl, List.length_cons, Prod.mk.injEq]
    constructor
    · push_cast; ring
    · omega

theorem Trainer.trainEpoch_snd {σ : Type} (M : SupModel σ) (s : σ)
    (X y : Mat) (bs : ℕ) (c : ℚ) (hl : ∀ s a b, M.loss_func s a b = c) :
    (Trainer.trainEpoch M s X y bs).2 =
      (c * ((X.length + bs - 1) / bs : ℕ), ((X.length + bs - 1) / bs : ℕ)) := by
  unfold Trainer.trainEpoch
  rw [Trainer.batchStep_foldl_snd M bs X y c hl]
  simp [batchStarts_length]

theorem Trainer.num_batches_pos (m bs : ℕ) (hm : 1 ≤ m) (hbs : 1 ≤ bs) :
    1 ≤ (m + bs - 1) / bs := by
  rw [Nat.one_le_div_iff (by omega)]
  omega

/-- C1. `Trainer.train` with a model whose loss is the constant `c` on every
batch and whose backward operation is a no-op reports, for every epoch, an
epoch loss equal to `c` (the reported epoch loss being the arithmetic mean
`epoch_loss / num_batches` of the per-batch losses), for every non-empty
training set and every `batch_size ≥ 1`. -/
theorem Trainer.train_const_loss {σ : Type} (M : SupModel σ) (c : ℚ)
    (hl : ∀ s a b, M.loss_func s a b = c)
    (_hb : ∀ s a b x, M.backward s a b x = s)
    (bs : ℕ) (hbs : 1 ≤ bs) (s : σ) (X y : Mat) (hX : 1 ≤ X.length)
    (perms : List (List ℕ)) (hp : ∀ ind ∈ perms, ind.length = X.length) :
    Trainer.train M bs s X y perms = List.replicate perms.length (some c) := by
  obtain ⟨m, hm⟩ : ∃ m, X.length = m := ⟨X.length, rfl⟩
  rw [hm] at hX hp
  induction perms generalizing s X y with
  | nil => simp [Trainer.train]
  | cons ind rest ih =>
    have hind : ind.length = m := hp ind (by simp)
    have hX1 : (reindex X ind).length = m := by rw [reindex_length, hind]
    have hnb : 1 ≤ ((reindex X ind).length + bs - 1) / bs := by
      rw [hX1]; exact Trainer.num_batches_pos m bs hX hbs
    rw [Trainer.train, List.length_cons, List.replicate_succ]
    have hsnd := Trainer.trainEpoch_snd M s (reindex X ind) (reindex y ind) bs c hl
    congr 1
    · rw [hsnd]
      have hne : (((reindex X ind).length + bs - 1) / bs : ℕ) ≠ 0 := by omega
      rw [if_neg hne]
      congr 1
      rw [mul_div_assoc, div_self (by exact_mod_cast hne), mul_one]
    · exact ih _ (reindex X ind) (reindex y ind)
        (fun i hi => hp i (List.mem_cons_of_mem ind hi)) hX1

/-- Witness for C1 at a concrete no-op model, one epoch, one sample. -/
theorem Trainer.train_const_loss_witness :
    Trainer.train M1 1 () [[0]] [[1]] [[0]] = List.replicate 1 (some 5) :=
  Trainer.train_const_loss M1 5 (fun _ _ _ => rfl) (fun _ _ _ _ => rfl)
    1 (by decide) () [[0]] [[1]] (by decide) [[0]] (by decide)

/-- C8. On an empty training set `Trainer.train` processes zero batches in
the first epoch (`num_batches = 0`), and the reported epoch loss
`epoch_loss / num_batches` divides by zero — modelled as `none`, where Python
raises `ZeroDivisionError`.  So a non-empty `X_train` is a necessary
precondition for `Trainer.train` to complete without error. -/
theorem Trainer.train_empty_divides_by_zero {σ : Type} (M : SupModel σ)
    (s : σ) (y : Mat) (bs : ℕ) (rest : List (List ℕ)) :
    (Trainer.trainEpoch M s (reindex [] []) (reindex y []) bs).2.2 = 0 ∧
    (Trainer.train M bs s [] y ([] :: rest)).head? = some none := by
  have hz : ∀ yv : Mat, (Trainer.trainEpoch M s (reindex [] []) yv bs).2.2 = 0 := by
    intro yv
    unfold Trainer.trainEpoch
    have : batchStarts (reindex ([] : Mat) []).length bs = [] := by
      match bs with
      | 0 => simp [batchStarts, reindex]
      | b + 1 =>
        simp only [batchStarts, reindex, List.map_nil, List.length_nil]
        rw [Nat.div_eq_of_lt (by omega)]
        simp
    rw [this]
    simp
  refine ⟨hz _, ?_⟩
  rw [Trainer.train]
  simp only [List.head?_cons, Option.some.injEq]
  rw [if_pos]
  exact hz (reindex y [])

theorem reindex_mem (X : Mat) (ind : List ℕ) (h : ∀ i ∈ ind, i < X.length) :
    ∀ v ∈ reindex X ind, v ∈ X := by
  intro v hv
  simp only [reindex, List.mem_map] at hv
  obtain ⟨i, hi, rfl⟩ := hv
  have hil := h i hi
  rw [List.getD_eq_getElem X [] hil]
  exact List.getElem_mem hil

theorem TrainerGAN.innerLoop_steps {σd : Type} (D : Disc σd) (X G yv : Mat) :
    ∀ (inds : List (List ℕ)) (sd : σd) (l rep : ℚ),
      ∀ st ∈ (TrainerGAN.innerLoop D X G yv sd l rep inds).2.2.2,
        st.x = reindex X st.ind ++ G ∧ st.y = yv ∧ st.ind ∈ inds := by
  intro inds
  induction inds with
  | nil => intro sd l rep st hst; simp [TrainerGAN.innerLoop] at hst
  | cons ind rest ih =>
    intro sd l rep st hst
    simp only [TrainerGAN.innerLoop, List.mem_cons] at hst
    rcases hst with h | h
    · subst h; exact ⟨rfl, rfl, List.mem_cons_self ind rest⟩
    · obtain ⟨h1, h2, h3⟩ := ih _ _ _ st h
      exact ⟨h1, h2, List.mem_cons_of_mem _ h3⟩

theorem TrainerGAN.innerLoop_length {σd : Type} (D : Disc σd) (X G yv : Mat) :
    ∀ (inds : List (List ℕ)) (sd : σd) (l rep : ℚ),
      (TrainerGAN.innerLoop D X G yv sd l rep inds).2.2.2.length =
        inds.length := by
  intro inds
  induction inds with
  | nil => intro sd l rep; simp [TrainerGAN.innerLoop]
  | cons ind rest ih =>
    intro sd l rep
    simp only [TrainerGAN.innerLoop, List.length_cons]
    rw [ih]

theorem TrainerGAN.innerLoop_last {σd : Type} (D : Disc σd) (X G yv : Mat) :
    ∀ (inds : List (List ℕ)) (sd : σd) (l rep : ℚ),
      (TrainerGAN.innerLoop D X G yv sd l rep inds).2.1 =
        ((TrainerGAN.innerLoop D X G yv sd l rep inds).2.2.2.map
          DStep.dloss).getLastD l := by
  intro inds
  induction inds with
  | nil => intro sd l rep; simp [TrainerGAN.innerLoop]
  | cons ind rest ih =>
    intro sd l rep
    simp only [TrainerGAN.innerLoop, List.map_cons, List.getLastD_cons]
    exact ih _ _ _

theorem TrainerGAN.innerLoop_report {σd : Type} (D : Disc σd) (X G yv : Mat) :
    ∀ (inds : List (List ℕ)) (sd : σd) (l rep : ℚ),
      (TrainerGAN.innerLoop D X G yv sd l rep inds).2.2.1 =
        rep + ((TrainerGAN.innerLoop D X G yv sd l rep inds).2.2.2.map
          DStep.dloss).sum := by
  intro inds
  induction inds with
  | nil => intro sd l rep; simp [TrainerGAN.innerLoop]
  | cons ind rest ih =>
    intro sd l rep
    simp only [TrainerGAN.innerLoop, List.map_cons, List.sum_cons]
    rw [ih]
    ring

theorem TrainerGAN.iteration_discBatchOK {σg σd : Type} (Gn : Gen σg σd)
    (D : Disc σd) (sg : σg) (sd : σd) (X : Mat) (bs : ℕ) (z : Mat)
    (inds : List (List ℕ)) (hz : z.length = bs)
    (hinds : ∀ ind ∈ inds, validDraw X.length bs ind) :
    TrainerGAN.discBatchOK bs X (TrainerGAN.iteration Gn D sg sd X bs z inds) := by
  constructor
  · simp [TrainerGAN.iteration, hz]
  · intro st hst
    have hmem : st ∈ (TrainerGAN.innerLoop D X (z.map (Gn.gen sg)) (ganY bs)
        sd 0 0 inds).2.2.2 := hst
    obtain ⟨h1, h2, h3⟩ := TrainerGAN.innerLoop_steps D X _ _ inds sd 0 0 st hmem
    obtain ⟨hlen, hlt⟩ := hinds st.ind h3
    refine ⟨h1, hlen, reindex_mem X st.ind hlt, ?_, h2, ?_, ?_⟩
    · rw [h1]
      simp only [TrainerGAN.iteration, List.length_append, reindex_length,
        List.length_map]
      rw [hlen, hz]
      ring
    · rw [h2, ganY, ganOnes, ganZeros,
        List.take_left' (List.length_replicate bs [(1 : ℚ)])]
    · rw [h2, ganY, ganOnes, ganZeros,
        List.drop_left' (List.length_replicate bs [(1 : ℚ)])]

/-- C2. In every inner discriminator step of every iteration of
`TrainerGAN.train`, the batch passed to the discriminator has length
`2 * batch_size` — `batch_size` rows drawn from `X_train` followed by the
`batch_size` generated fake rows — and the label vector passed with it has
its first `batch_size` entries equal to `[1]` and its last `batch_size`
entries equal to `[0]`. -/
theorem TrainerGAN.train_disc_batch {σg σd : Type} (Gn : Gen σg σd)
    (D : Disc σd) (X : Mat) (bs : ℕ) (sg : σg) (sd : σd)
    (rands : List (Mat × List (List ℕ))) (hr : TrainerGAN.randsOK bs X rands) :
    TrainerGAN.allDiscBatchOK bs X (TrainerGAN.train Gn D X bs sg sd rands) := by
  induction rands generalizing sg sd with
  | nil => intro out hout; simp [TrainerGAN.train] at hout
  | cons p rest ih =>
    obtain ⟨z, inds⟩ := p
    intro out hout
    simp only [TrainerGAN.train, List.mem_cons] at hout
    rcases hout with h | h
    · subst h
      exact TrainerGAN.iteration_discBatchOK Gn D sg sd X bs z inds
        (hr (z, inds) (List.mem_cons_self _ _)).1
        (hr (z, inds) (List.mem_cons_self _ _)).2
    · exact ih _ _ (fun r hrr => hr r (List.mem_cons_of_mem _ hrr)) out h

/-- Witness for C2 at a concrete generator/discriminator pair, one
iteration, one inner step, `batch_size = 1`. -/
theorem TrainerGAN.train_disc_batch_witness :
    TrainerGAN.randsOK 1 [[0]] [([[0]], [[0]])] ∧
    TrainerGAN.allDiscBatchOK 1 [[0]]
      (TrainerGAN.train Gq Dq [[0]] 1 () 1 [([[0]], [[0]])]) :=
  ⟨by decide, TrainerGAN.train_disc_batch Gq Dq [[0]] 1 () 1
    [([[0]], [[0]])] (by decide)⟩

theorem TrainerGAN.iteration_genStepOK {σg σd : Type} (Gn : Gen σg σd)
    (D : Disc σd) (sg : σg) (sd : σd) (X : Mat) (bs : ℕ) (z : Mat)
    (inds : List (List ℕ)) :
    TrainerGAN.genStepOK Gn D bs (TrainerGAN.iteration Gn D sg sd X bs z inds) :=
  ⟨rfl, rfl, rfl, by simp [ganOnes], rfl, rfl⟩

/-- C3, amended. In every iteration of `TrainerGAN.train`, the
generator-training step computes the discriminator's output on the *same*
fake batch `G` generated from the iteration's single latent draw `z` (the
one also used to build the discriminator's training batches — not a distinct
one), trains the generator against an all-ones target of length
`batch_size`, and calls the generator's backward operation with the
discriminator passed as a collaborator. -/
theorem TrainerGAN.train_gen_step {σg σd : Type} (Gn : Gen σg σd)
    (D : Disc σd) (X : Mat) (bs : ℕ) (sg : σg) (sd : σd)
    (rands : List (Mat × List (List ℕ))) :
    TrainerGAN.allGenStepOK Gn D bs (TrainerGAN.train Gn D X bs sg sd rands) := by
  induction rands generalizing sg sd with
  | nil => intro out hout; simp [TrainerGAN.train] at hout
  | cons p rest ih =>
    obtain ⟨z, inds⟩ := p
    intro out hout
    simp only [TrainerGAN.train, List.mem_cons] at hout
    rcases hout with h | h
    · subst h; exact TrainerGAN.iteration_genStepOK Gn D sg sd X bs z inds
    · exact ih _ _ out h

/-- Counterexample to C3 as stated: at a concrete input the fake batch fed
to the discriminator in the generator step (`genInput`) is the very batch
`G` generated from the iteration's latent draw `z = [[2]]` and already used
in the discriminator's training batch `[[5], [2]]` — not a batch from a
distinct latent draw. -/
theorem TrainerGAN.gen_input_not_fresh_cex :
    (TrainerGAN.train Gq Dq [[5]] 1 () 1 [([[2]], [[0]])]).map
        (fun o => (o.genInput, o.fake, o.z, o.dsteps.map DStep.x)) =
      [([[2]], [[2]], [[2]], [[[5], [2]]])] := by
  decide

theorem TrainerGAN.iteration_printedOK {σg σd : Type} (Gn : Gen σg σd)
    (D : Disc σd) (sg : σg) (sd : σd) (X : Mat) (bs : ℕ) (z : Mat)
    (inds : List (List ℕ)) :
    TrainerGAN.printedOK (TrainerGAN.iteration Gn D sg sd X bs z inds) := by
  have hlen := TrainerGAN.innerLoop_length D X (z.map (Gn.gen sg)) (ganY bs)
    inds sd 0 0
  have hlast := TrainerGAN.innerLoop_last D X (z.map (Gn.gen sg)) (ganY bs)
    inds sd 0 0
  have hrep := TrainerGAN.innerLoop_report D X (z.map (Gn.gen sg)) (ganY bs)
    inds sd 0 0
  constructor
  · show (TrainerGAN.innerLoop D X (z.map (Gn.gen sg)) (ganY bs)
        sd 0 0 inds).2.1 / ((inds.length : ℕ) : ℚ) =
      ((TrainerGAN.innerLoop D X (z.map (Gn.gen sg)) (ganY bs)
        sd 0 0 inds).2.2.2.map DStep.dloss).getLastD 0 /
        (((TrainerGAN.innerLoop D X (z.map (Gn.gen sg)) (ganY bs)
          sd 0 0 inds).2.2.2.length : ℕ) : ℚ)
    rw [hlast, hlen]
  · show (TrainerGAN.innerLoop D X (z.map (Gn.gen sg)) (ganY bs)
        sd 0 0 inds).2.2.1 =
      ((TrainerGAN.innerLoop D X (z.map (Gn.gen sg)) (ganY bs)
        sd 0 0 inds).2.2.2.map DStep.dloss).sum
    rw [hrep, zero_add]

/-- C9. The discriminator loss printed by `TrainerGAN.train` is
`D_loss / k` where `D_loss` is the loss of the *last* of the `k` inner
discriminator steps — not the mean of the `k` inner-step losses; the
accumulated sum `report_loss` is never printed.  At the concrete instance in
the second conjunct (`k = 2`, inner-step losses `1` and `2`) the printed
value `1` differs from the mean `3/2`. -/
theorem TrainerGAN.printed_dloss_last_not_mean {σg σd : Type}
    (Gn : Gen σg σd) (D : Disc σd) (X : Mat) (bs : ℕ) (sg : σg) (sd : σd)
    (rands : List (Mat × List (List ℕ))) :
    TrainerGAN.allPrintedOK (TrainerGAN.train Gn D X bs sg sd rands) ∧
    (TrainerGAN.iteration Gq Dq () 1 [[0]] 1 [[0]] [[0], [0]]).printedD ≠
      ((TrainerGAN.iteration Gq Dq () 1 [[0]] 1 [[0]] [[0], [0]]).dsteps.map
          DStep.dloss).sum /
        (((TrainerGAN.iteration Gq Dq () 1 [[0]] 1 [[0]]
          [[0], [0]]).dsteps.length : ℕ) : ℚ) := by
  constructor
  · induction rands generalizing sg sd with
    | nil => intro out hout; simp [TrainerGAN.train] at hout
    | cons p rest ih =>
      obtain ⟨z, inds⟩ := p
      intro out hout
      simp only [TrainerGAN.train, List.mem_cons] at hout
      rcases hout with h | h
      · subst h; exact TrainerGAN.iteration_printedOK Gn D sg sd X bs z inds
      · exact ih _ _ out h
  · norm_num [TrainerGAN.iteration, TrainerGAN.innerLoop, Dq, Gq, ganY,
      ganOnes, ganZeros, reindex]

/-- C10. The real-sample indices of each inner discriminator step come from
`np.random.choice(m, batch_size)`, which samples with replacement: whenever
`batch_size ≥ 2` and `X_train` is non-empty there is a draw in the support
(`validDraw`) under which the real minibatch `X_train[ind]` contains the
same training sample more than once. -/
theorem TrainerGAN.real_draw_with_replacement (m bs : ℕ) (hm : 1 ≤ m)
    (hbs : 2 ≤ bs) (X : Mat) (hX : X.length = m) :
    ∃ ind, validDraw m bs ind ∧ (reindex X ind).length = bs ∧
      ¬ (reindex X ind).Nodup := by
  refine ⟨List.replicate bs 0, ⟨by simp, ?_⟩, by simp [reindex_length], ?_⟩
  · intro i hi
    rw [List.eq_of_mem_replicate hi]
    omega
  · rw [reindex, List.map_replicate, List.nodup_replicate]
    omega

/-- Witness for C10 at `m = 1`, `batch_size = 2`, `X_train = [[7]]`. -/
theorem TrainerGAN.real_draw_with_replacement_witness :
    ∃ ind, validDraw 1 2 ind ∧ (reindex [[7]] ind).length = 2 ∧
      ¬ (reindex [[7]] ind).Nodup :=
  TrainerGAN.real_draw_with_replacement 1 2 (by decide) (by decide)
    [[7]] (by decide)

theorem indicator_sum_zero (v : ℚ) :
    ∀ l : List ℚ, v ∉ l →
      (l.map (fun c => if v = c then (1 : ℚ) else 0)).sum = 0 := by
  intro l
  induction l with
  | nil => intro _; simp
  | cons c t ih =>
    intro hv
    simp only [List.mem_cons, not_or] at hv
    simp only [List.map_cons, List.sum_cons, if_neg hv.1, ih hv.2, add_zero]

theorem indicator_sum_one (v : ℚ) :
    ∀ l : List ℚ, l.Nodup → v ∈ l →
      (l.map (fun c => if v = c then (1 : ℚ) else 0)).sum = 1 := by
  intro l
  induction l with
  | nil => intro _ h; cases h
  | cons c t ih =>
    intro hnd hm
    rw [List.nodup_cons] at hnd
    rcases List.mem_cons.mp hm with h | h
    · subst h
      rw [List.map_cons, List.sum_cons, if_pos rfl,
        indicator_sum_zero v t hnd.1, add_zero]
    · have hne : v ≠ c := fun he => hnd.1 (he ▸ h)
      simp only [List.map_cons, List.sum_cons, if_neg hne]
      rw [ih hnd.2 h, zero_add]

theorem indicator_count_zero (v : ℚ) :
    ∀ l : List ℚ, v ∉ l →
      (l.map (fun c => if v = c then (1 : ℚ) else 0)).count 1 = 0 := by
  intro l
  induction l with
  | nil => intro _; simp
  | cons c t ih =>
    intro hv
    simp only [List.mem_cons, not_or] at hv
    simp only [List.map_cons, List.count_cons, if_neg hv.1, ih hv.2]
    norm_num

theorem indicator_count_one (v : ℚ) :
    ∀ l : List ℚ, l.Nodup → v ∈ l →
      (l.map (fun c => if v = c then (1 : ℚ) else 0)).count 1 = 1 := by
  intro l
  induction l with
  | nil => intro _ h; cases h
  | cons c t ih =>
    intro hnd hm
    rw [List.nodup_cons] at hnd
    rcases List.mem_cons.mp hm with h | h
    · subst h
      simp only [List.map_cons, List.count_cons, if_pos rfl]
      rw [indicator_count_zero v t hnd.1]
      norm_num
    · have hne : v ≠ c := fun he => hnd.1 (he ▸ h)
      simp only [List.map_cons, List.count_cons, if_neg hne]
      rw [ih hnd.2 h]
      norm_num

theorem classesOf_nodup (y : List ℚ) : (classesOf y).Nodup :=
  Finset.sort_nodup _ _

theorem mem_classesOf {v : ℚ} {y : List ℚ} (h : v ∈ y) : v ∈ classesOf y := by
  rw [classesOf, Finset.mem_sort]
  exact List.mem_toFinset.mpr h

/-- C5. For every non-empty label vector `y`, `one_hot_encoding y` returns a
matrix in which every row sums to `1`, whose number of columns equals the
number of distinct labels in `y`, and whose columns are ordered by sorted
unique label value: row `i` has its `1` in the column whose rank equals the
rank of `y[i]` among the sorted distinct labels. -/
theorem one_hot_encoding_spec (y : List ℚ) (_hy : y ≠ []) :
    (∀ r ∈ one_hot_encoding y, r.sum = 1 ∧ r.length = y.toFinset.card) ∧
    List.Sorted (fun a b => a ≤ b) (classesOf y) ∧
    (classesOf y).Nodup ∧
    (classesOf y).length = y.toFinset.card ∧
    ∀ i, i < y.length →
      (one_hot_encoding y).getD i [] =
        (classesOf y).map (fun c => if y.getD i 0 = c then (1 : ℚ) else 0) := by
  refine ⟨?_, Finset.sort_sorted _ _, classesOf_nodup y, ?_, ?_⟩
  · intro r hr
    obtain ⟨v, hv, rfl⟩ := List.mem_map.mp hr
    refine ⟨indicator_sum_one v (classesOf y) (classesOf_nodup y)
      (mem_classesOf hv), ?_⟩
    simp [classesOf, Finset.length_sort]
  · simp [classesOf, Finset.length_sort]
  · intro i hi
    have hi2 : i < (one_hot_encoding y).length := by
      simpa [one_hot_encoding] using hi
    rw [List.getD_eq_getElem _ _ hi2, List.getD_eq_getElem _ _ hi]
    simp [one_hot_encoding]

/-- Witness for C5 at the concrete label vector `[3, 1, 1]`. -/
theorem one_hot_encoding_spec_witness :
    (∀ r ∈ one_hot_encoding [(3 : ℚ), 1, 1], r.sum = 1 ∧
        r.length = ([(3 : ℚ), 1, 1] : List ℚ).toFinset.card) ∧
    List.Sorted (fun a b => a ≤ b) (classesOf [(3 : ℚ), 1, 1]) ∧
    (classesOf [(3 : ℚ), 1, 1]).Nodup ∧
    (classesOf [(3 : ℚ), 1, 1]).length = ([(3 : ℚ), 1, 1] : List ℚ).toFinset.card ∧
    ∀ i, i < ([(3 : ℚ), 1, 1] : List ℚ).length →
      (one_hot_encoding [(3 : ℚ), 1, 1]).getD i [] =
        (classesOf [(3 : ℚ), 1, 1]).map
          (fun c => if ([(3 : ℚ), 1, 1] : List ℚ).getD i 0 = c then (1 : ℚ) else 0) :=
  one_hot_encoding_spec [(3 : ℚ), 1, 1] (by decide)

/-- C4. For every input array `X` with values in `[0, 255]` (and, when `nn`
is set, a size compatible with the `(-1, 28, 28, 1)` reshape) and every
label array `y`: `preprocess_data X y nn test` returns an `X` whose values
lie in `[0, 1]`; if `nn` is true the returned `X` has shape
`(N, 28, 28, 1)`; if `test` is true the returned `y` is left unencoded
(identical to the input); if `test` is false the returned `y` is the one-hot
matrix with exactly one `1` per row. -/
theorem preprocess_data_spec (X y : NpArr) (nn test : Bool)
    (hX : ∀ v ∈ X.data, 0 ≤ v ∧ v ≤ 255)
    (hdiv : nn = true → (784 : ℕ) ∣ X.data.length) :
    ∃ Xp yp, preprocess_data X y nn test = some (Xp, yp) ∧
      (∀ v ∈ Xp.data, 0 ≤ v ∧ v ≤ 1) ∧
      (nn = true → Xp.shape = [X.data.length / 784, 28, 28, 1]) ∧
      (test = true → yp = y) ∧
      (test = false → yp = ohArr y ∧
        ∀ r ∈ one_hot_encoding y.data, r.count 1 = 1) := by
  have hval : ∀ v ∈ (npDiv255 X).data, 0 ≤ v ∧ v ≤ 1 := by
    intro v hv
    simp only [npDiv255, List.mem_map] at hv
    obtain ⟨w, hw, rfl⟩ := hv
    obtain ⟨h0, h255⟩ := hX w hw
    constructor
    · exact div_nonneg h0 (by norm_num)
    · rw [div_le_one (by norm_num)]
      exact h255
  have hcount : ∀ r ∈ one_hot_encoding y.data, r.count 1 = 1 := by
    intro r hr
    obtain ⟨v, hv, rfl⟩ := List.mem_map.mp hr
    exact indicator_count_one v (classesOf y.data) (classesOf_nodup y.data)
      (mem_classesOf hv)
  cases nn with
  | false =>
    cases test with
    | false =>
      exact ⟨npDiv255 X, ohArr y, rfl, hval, by simp, by simp,
        fun _ => ⟨rfl, hcount⟩⟩
    | true =>
      exact ⟨npDiv255 X, y, rfl, hval, by simp, fun _ => rfl, by simp⟩
  | true =>
    have hd : (784 : ℕ) ∣ X.data.length := hdiv rfl
    have hp : ([28, 28, 1] : List ℕ).prod = 784 := by decide
    have hlen : (npDiv255 X).data.length = X.data.length := by simp [npDiv255]
    have hre : npReshapeTail (npDiv255 X) [28, 28, 1] =
        some ⟨[X.data.length / 784, 28, 28, 1], (npDiv255 X).data⟩ := by
      rw [npReshapeTail, if_pos (by rw [hp, hlen]; exact hd)]
      rw [hp, hlen]
    have hpre : preprocess_data X y true test =
        some (⟨[X.data.length / 784, 28, 28, 1], (npDiv255 X).data⟩,
          if test then y else ohArr y) := by
      simp only [preprocess_data, if_true, hre]
    cases test with
    | false =>
      refine ⟨_, _, hpre, hval, fun _ => rfl, by simp, fun _ => ⟨?_, hcount⟩⟩
      simp
    | true =>
      exact ⟨_, _, hpre, hval, fun _ => rfl, fun _ => by simp, by simp⟩

/-- Witness for C4 at a concrete all-255 image and labels `[0, 1]`, with
`nn = true`, `test = false`. -/
theorem preprocess_data_spec_witness :
    ∃ Xp yp, preprocess_data ⟨[784], List.replicate 784 (255 : ℚ)⟩
        ⟨[2], [0, 1]⟩ true false = some (Xp, yp) ∧
      (∀ v ∈ Xp.data, 0 ≤ v ∧ v ≤ 1) ∧
      (true = true → Xp.shape =
        [(⟨[784], List.replicate 784 (255 : ℚ)⟩ : NpArr).data.length / 784,
          28, 28, 1]) ∧
      (false = true → yp = ⟨[2], [0, 1]⟩) ∧
      (false = false → yp = ohArr ⟨[2], [0, 1]⟩ ∧
        ∀ r ∈ one_hot_encoding (⟨[2], [0, 1]⟩ : NpArr).data, r.count 1 = 1) :=
  preprocess_data_spec ⟨[784], List.replicate 784 (255 : ℚ)⟩ ⟨[2], [0, 1]⟩
    true false
    (by intro v hv; rw [List.eq_of_mem_replicate hv]; norm_num)
    (by
      intro _
      show (784 : ℕ) ∣ (List.replicate 784 (255 : ℚ)).length
      rw [List.length_replicate])

theorem mnistStep_mono (a : String) (st : MnistFS × ℕ) (u : String)
    (h : a ∈ st.1.files) : a ∈ (mnistStep st u).1.files := by
  simp only [mnistStep]
  by_cases h1 : uncompressedName (fileName u) ∈ st.1.files
  · rw [if_pos h1]; exact h
  · rw [if_neg h1]
    by_cases h2 : fileName u ∈ st.1.files
    · rw [if_pos h2]
      exact List.mem_cons_of_mem _ h
    · rw [if_neg h2]
      exact List.mem_cons_of_mem _ (List.mem_cons_of_mem _ h)

theorem mnistStep_un (st : MnistFS × ℕ) (u : String) :
    uncompressedName (fileName u) ∈ (mnistStep st u).1.files := by
  simp only [mnistStep]
  by_cases h1 : uncompressedName (fileName u) ∈ st.1.files
  · rw [if_pos h1]; exact h1
  · rw [if_neg h1]
    exact List.mem_cons_self _ _

theorem mnistStep_skip (st : MnistFS × ℕ) (u : String)
    (h : uncompressedName (fileName u) ∈ st.1.files) : mnistStep st u = st := by
  simp only [mnistStep]
  rw [if_pos h]

theorem mnist_foldl_mono (a : String) (l : List String) :
    ∀ st : MnistFS × ℕ, a ∈ st.1.files →
      a ∈ (l.foldl mnistStep st).1.files := by
  induction l with
  | nil => intro st h; exact h
  | cons u rest ih =>
    intro st h
    rw [List.foldl_cons]
    exact ih _ (mnistStep_mono a st u h)

theorem mnist_foldl_un (l : List String) :
    ∀ (st : MnistFS × ℕ), ∀ u ∈ l,
      uncompressedName (fileName u) ∈ (l.foldl mnistStep st).1.files := by
  induction l with
  | nil => intro st u hu; cases hu
  | cons v rest ih =>
    intro st u hu
    rw [List.foldl_cons]
    rcases List.mem_cons.mp hu with h | h
    · subst h
      exact mnist_foldl_mono _ rest _ (mnistStep_un st u)
    · exact ih _ u h

theorem mnist_foldl_skip (l : List String) :
    ∀ (st : MnistFS × ℕ),
      (∀ u ∈ l, uncompressedName (fileName u) ∈ st.1.files) →
      l.foldl mnistStep st = st := by
  induction l with
  | nil => intro st _; rfl
  | cons v rest ih =>
    intro st h
    rw [List.foldl_cons, mnistStep_skip st v (h v (List.mem_cons_self v rest))]
    exact ih st (fun u hu => h u (List.mem_cons_of_mem v hu))

/-- C6. `load_dataset_mnist` is idempotent with respect to network I/O: for
every initial filesystem state, after one (successful) call a second call
performs zero network requests — every decompressed target is already
present, so every download is skipped. -/
theorem load_dataset_mnist_idempotent (fs : MnistFS) :
    (load_dataset_mnist (load_dataset_mnist fs).1).2 = 0 := by
  have hall : ∀ u ∈ mnistUrls,
      uncompressedName (fileName u) ∈ (load_dataset_mnist fs).1.files := by
    intro u hu
    rw [load_dataset_mnist]
    exact mnist_foldl_un mnistUrls _ u hu
  show (mnistUrls.foldl mnistStep
    (⟨true, (load_dataset_mnist fs).1.files⟩, 0)).2 = 0
  rw [mnist_foldl_skip mnistUrls (⟨true, (load_dataset_mnist fs).1.files⟩, 0)
    (fun u hu => hall u hu)]

theorem sliceAssign_length (dst src : List ℚ) (start stop : ℕ)
    (h1 : start ≤ dst.length) (h2 : stop ≤ dst.length) :
    (sliceAssign dst start stop src).length =
      start + src.length + (dst.length - stop) := by
  simp only [sliceAssign, List.length_append, List.length_take,
    List.length_drop]
  omega

theorem cifar_fold_y_len (lb : String → NpArr × NpArr)
    (hlb : load_batch_contract lb) :
    ∀ (l : List ℕ), (∀ i ∈ l, i < 5) → ∀ (acc : List ℚ × List ℚ),
      acc.2.length = 50000 →
      ((l.foldl (cifarFoldStep lb) acc).2).length = 50000 := by
  intro l
  induction l with
  | nil => intro _ acc h; exact h
  | cons i rest ih =>
    intro hmem acc hacc
    rw [List.foldl_cons]
    refine ih (fun j hj => hmem j (List.mem_cons_of_mem i hj)) _ ?_
    have hi5 : i < 5 := hmem i (List.mem_cons_self i rest)
    show (sliceAssign acc.2 (i * 10000) ((i + 1) * 10000)
      ((lb ("cifar-10-batches-py" ++ "/data_batch_" ++ toString (i + 1))).2.data)).length = 50000
    rw [sliceAssign_length _ _ _ _ (by omega) (by omega),
      (hlb ("cifar-10-batches-py" ++ "/data_batch_" ++ toString (i + 1))).2.2.2]
    omega

/-- C7. Every (successful) call to `load_dataset_cifar10` returns
`((x_train, y_train), (x_test, y_test))` with `x_train` of shape
`(50000, 3, 32, 32)`, `x_test` of shape `(10000, 3, 32, 32)`, and both label
vectors reshaped to column form: `y_train` of shape `(50000, 1)` and
`y_test` of shape `(10000, 1)`. -/
theorem load_dataset_cifar10_shapes (lb : String → NpArr × NpArr)
    (hlb : load_batch_contract lb) :
    (load_dataset_cifar10 lb).1.1.shape = [50000, 3, 32, 32] ∧
    (load_dataset_cifar10 lb).2.1.shape = [10000, 3, 32, 32] ∧
    (load_dataset_cifar10 lb).1.2.shape = [50000, 1] ∧
    (load_dataset_cifar10 lb).2.2.shape = [10000, 1] := by
  refine ⟨rfl, ?_, ?_, ?_⟩
  · show (lb ("cifar-10-batches-py" ++ "/test_batch")).1.shape = _
    exact (hlb _).1
  · show [((List.range 5).foldl (cifarFoldStep lb)
      ((npEmpty [50000, 3, 32, 32]).data, (npEmpty [50000]).data)).2.length, 1] =
      [50000, 1]
    rw [cifar_fold_y_len lb hlb (List.range 5)
      (fun i hi => List.mem_range.mp hi) _ ?_]
    show (List.replicate ([50000] : List ℕ).prod (0 : ℚ)).length = 50000
    rw [List.length_replicate]
    decide
  · show [(lb ("cifar-10-batches-py" ++ "/test_batch")).2.data.length, 1] =
      [10000, 1]
    rw [(hlb ("cifar-10-batches-py" ++ "/test_batch")).2.2.2]

/-- Witness for C7 at a concrete all-zeros `load_batch`. -/
theorem load_dataset_cifar10_shapes_witness :
    (load_dataset_cifar10 lb0).1.1.shape = [50000, 3, 32, 32] ∧
    (load_dataset_cifar10 lb0).2.1.shape = [10000, 3, 32, 32] ∧
    (load_dataset_cifar10 lb0).1.2.shape = [50000, 1] ∧
    (load_dataset_cifar10 lb0).2.2.shape = [10000, 1] :=
  load_dataset_cifar10_shapes lb0
    (fun _ => ⟨rfl, List.length_replicate _ _, rfl, List.length_replicate _ _⟩)
